import Mathlib

/-!
Verification of the computational core of `recipe_optimizer_sdd.py`
(an ingredient-ratio calculator with sourdough-discard substitution).

The Python dictionaries (`amounts`, `ratios`, the recipe store) are embedded
as association lists `List (String × α)` with the Python-dict update
semantics: assigning to an existing key updates it in place, assigning to a
fresh key appends it at the end, and lookup takes the first matching entry
(Python dicts have unique keys, so "first" is exact on well-formed inputs).
Python floats are embedded as rationals `ℚ`, so all arithmetic is exact;
Python's `x / 0.0` raises `ZeroDivisionError`, which is embedded as
`Except.error ()`.  `str.lower` is embedded as `Char.toLower` mapped over the
characters (the hint strings and all names of interest are ASCII, where the
two agree), and Python's substring test `h in s` as `containsSub`.
-/

namespace RecipeOptimizer

/-- Characters of `s`, lowercased (embedding of Python `s.lower()`). -/
def lowerStr (s : String) : List Char :=
  s.data.map Char.toLower

/-- `isPrefixL n h` is true when `n` is a prefix of `h`. -/
def isPrefixL : List Char → List Char → Bool
  | [], _ => true
  | _ :: _, [] => false
  | a :: as, b :: bs => a = b && isPrefixL as bs

/-- `containsSub n h` is true when `n` occurs contiguously in `h`
(embedding of Python `n in h` on strings). -/
def containsSub (needle : List Char) : List Char → Bool
  | [] => isPrefixL needle []
  | c :: t => isPrefixL needle (c :: t) || containsSub needle t

/-- `FLOUR_HINTS` from the source (line 7). -/
def FLOUR_HINTS : List String := ["flour"]

/-- `LIQUID_HINTS` from the source (line 8). -/
def LIQUID_HINTS : List String := ["water", "milk"]

/-- `True` (as a `Bool`) when some hint occurs in the lowercased key:
the inner loop condition of `detect_ingredient` (lines 29-31). -/
def matchesAny (k : String) (hints : List String) : Bool :=
  hints.any (fun h => containsSub h.data (lowerStr k))

/-- `detect_ingredient(keys, hints)` (source lines 27-32): the first key
whose lowercased form contains some hint as a substring, else `None`. -/
def detect_ingredient : List String → List String → Option String
  | [], _ => none
  | k :: ks, hints =>
    if matchesAny k hints then some k else detect_ingredient ks hints

/-- Lookup with default: embedding of Python `m.get(k, d)`; `m[k]` is the
same when `k` is known to be present. -/
def getD {α : Type} (m : List (String × α)) (k : String) (d : α) : α :=
  match m with
  | [] => d
  | p :: t => if p.1 = k then p.2 else getD t k d

/-- Embedding of Python `k in m` for a dict `m`. -/
def hasKey {α : Type} (m : List (String × α)) (k : String) : Bool :=
  m.any (fun p => p.1 = k)

/-- Embedding of Python dict assignment `m[k] = v`: update an existing key in
place (keeping its position), append a fresh key at the end. -/
def setKey {α : Type} (m : List (String × α)) (k : String) (v : α) :
    List (String × α) :=
  if hasKey m k then m.map (fun p => if p.1 = k then (k, v) else p)
  else m ++ [(k, v)]

/-- Embedding of Python `m.keys()` (in insertion order). -/
def keysOf {α : Type} (m : List (String × α)) : List String :=
  m.map Prod.fst

/-- Result triple of `apply_sdd`: the updated amounts, the detected flour
ingredient, and the warnings. -/
structure SddResult where
  amounts : List (String × ℚ)
  flour : Option String
  warnings : List String
  deriving DecidableEq

/-- `apply_sdd(amounts, sdd)` (source lines 70-89).  Both ingredient roles
are detected up front on the original mapping; the flour amount is reduced
first, then the liquid amount is reduced reading the *already updated*
mapping (the source mutates `amounts` in place); warnings are appended in
flour-then-liquid order; finally `amounts["sdd"] = sdd`.  The source guards
each block with the truthiness `if flour:` / `if liquid:`; since every hint
is a non-empty string, `detect_ingredient` never returns an empty string, so
truthiness coincides with the `Option` match used here. -/
def apply_sdd (amounts : List (String × ℚ)) (sdd : ℚ) : SddResult :=
  let flour := detect_ingredient (keysOf amounts) FLOUR_HINTS
  let liquid := detect_ingredient (keysOf amounts) LIQUID_HINTS
  let flour_red := (1 / 2 : ℚ) * sdd
  let liquid_red := (1 / 2 : ℚ) * sdd
  let w1 : List String :=
    match flour with
    | some fk =>
      if flour_red > getD amounts fk 0 then
        ["SDD exceeds flour; flour reduced to 0"]
      else []
    | none => []
  let a1 : List (String × ℚ) :=
    match flour with
    | some fk => setKey amounts fk (max 0 (getD amounts fk 0 - flour_red))
    | none => amounts
  let w2 : List String :=
    match liquid with
    | some lk =>
      if liquid_red > getD a1 lk 0 then
        ["SDD exceeds liquid; liquid reduced to 0"]
      else []
    | none => []
  let a2 : List (String × ℚ) :=
    match liquid with
    | some lk => setKey a1 lk (max 0 (getD a1 lk 0 - liquid_red))
    | none => a1
  { amounts := setKey a2 "sdd" sdd, flour := flour, warnings := w1 ++ w2 }

/-- The liquid filter of `hydration` (source lines 94-97): a key counts as
liquid when some liquid hint occurs in its lowercased form. -/
def isLiquidKey (k : String) : Bool :=
  matchesAny k LIQUID_HINTS

/-- The liquid sum of `hydration` (source lines 94-97): the sum of the values
of every liquid-classified entry. -/
def liquidTotal (amounts : List (String × ℚ)) : ℚ :=
  ((amounts.filter (fun p => isLiquidKey p.1)).map (fun p => p.2)).sum

/-- `hydration(amounts, flour)` (source lines 92-99): defined only when a
flour ingredient was identified and its amount is strictly positive.  The
source's truthiness guard `if flour and amounts.get(flour, 0) > 0` coincides
with the `Option` match since `detect_ingredient` never returns `""`. -/
def hydration (amounts : List (String × ℚ)) (flour : Option String) :
    Option ℚ :=
  match flour with
  | none => none
  | some f =>
    if 0 < getD amounts f 0 then
      some (100 * liquidTotal amounts / getD amounts f 0)
    else none

/-- The ratio construction of `create_recipe` (source line 121):
`ingredients[ing] = amt / servings` for each entered ingredient. -/
def makeRatios (totals : List (String × ℚ)) (servings : ℚ) :
    List (String × ℚ) :=
  totals.map (fun p => (p.1, p.2 / servings))

/-- The scaling step shared by both optimizer modes (source lines 145 and
172): `amounts = {k: v * servings for k, v in ratios.items()}`. -/
def targetAmounts (ratios : List (String × ℚ)) (servings : ℚ) :
    List (String × ℚ) :=
  ratios.map (fun p => (p.1, p.2 * servings))

/-- The per-ingredient serving bounds of maximize mode (source line 171,
`available[k] / ratios[k] for k in ratios`), in order.  A zero ratio is
`Except.error ()`: Python raises `ZeroDivisionError` there, the source has
no guard. -/
def servingBounds (ratios : List (String × ℚ)) (avail : String → ℚ) :
    Except Unit (List ℚ) :=
  match ratios with
  | [] => .ok []
  | (k, r) :: rest =>
    if r = 0 then .error ()
    else
      match servingBounds rest avail with
      | .error e => .error e
      | .ok qs => .ok (avail k / r :: qs)

/-- `servings = min(available[k] / ratios[k] for k in ratios)` (source line
171).  `min` of an empty sequence also raises in Python, hence the error on
the empty list. -/
def maximizeServings (ratios : List (String × ℚ)) (avail : String → ℚ) :
    Except Unit ℚ :=
  match servingBounds ratios avail with
  | .error e => .error e
  | .ok [] => .error ()
  | .ok (q :: qs) => .ok (qs.foldl min q)

/-- A stored recipe record (source line 123):
`{"servings": servings, "ingredients": ingredients}`. -/
structure Recipe where
  servings : ℚ
  ingredients : List (String × ℚ)
  deriving DecidableEq

/-- The core of `create_recipe` (source lines 102-124), with the interactive
prompts abstracted into parameters: reject an empty or already-used name
(returning `none`: the source prints and returns *before* `save_recipes`, so
the persisted store is untouched); otherwise store per-serving ratios
`total / servings` under the new name and persist the whole store (`some`).
The source's duplicate-ingredient skip makes `totals` a dict, i.e. its keys
are distinct. -/
def create_recipe (recipes : List (String × Recipe)) (name : String)
    (servings : ℚ) (totals : List (String × ℚ)) :
    Option (List (String × Recipe)) :=
  if name = "" || hasKey recipes name then none
  else
    some (setKey recipes name
      { servings := servings, ingredients := makeRatios totals servings })

/-! ### Association-list lemmas -/

theorem getD_append_of_not_found {α : Type} (m l : List (String × α))
    (k : String) (d : α) (h : hasKey m k = false) :
    getD (m ++ l) k d = getD l k d := by
  induction m with
  | nil => rfl
  | cons p t ih =>
    simp only [hasKey, List.any_cons, Bool.or_eq_false_iff,
      decide_eq_false_iff_not] at h
    rw [List.cons_append]
    show (if p.1 = k then p.2 else getD (t ++ l) k d) = getD l k d
    rw [if_neg h.1]
    exact ih (by simp only [hasKey]; exact h.2)

theorem getD_map_set_self {α : Type} (m : List (String × α)) (k : String)
    (v d : α) (h : hasKey m k = true) :
    getD (m.map (fun p => if p.1 = k then (k, v) else p)) k d = v := by
  induction m with
  | nil => simp [hasKey] at h
  | cons p t ih =>
    by_cases hp : p.1 = k
    · simp [getD, hp]
    · simp only [hasKey, List.any_cons] at h
      simp only [List.map_cons, if_neg hp, getD]
      have h' : p.1 = k ∨ hasKey t k = true := by simpa [hasKey] using h
      rcases h' with h1 | h2
      · exact absurd h1 hp
      · exact ih h2

theorem getD_map_set_ne {α : Type} (m : List (String × α)) (k k' : String)
    (v : α) (d : α) (h : k' ≠ k) :
    getD (m.map (fun p => if p.1 = k then (k, v) else p)) k' d
      = getD m k' d := by
  induction m with
  | nil => rfl
  | cons p t ih =>
    by_cases hp : p.1 = k
    · simp only [List.map_cons, if_pos hp, getD]
      rw [if_neg (fun hkk => h hkk.symm), if_neg (by rw [hp]; exact fun hkk => h hkk.symm)]
      exact ih
    · simp only [List.map_cons, if_neg hp, getD]
      split <;> [rfl; exact ih]

theorem getD_setKey_self {α : Type} (m : List (String × α)) (k : String)
    (v d : α) : getD (setKey m k v) k d = v := by
  unfold setKey
  by_cases h : hasKey m k = true
  · rw [if_pos h]; exact getD_map_set_self m k v d h
  · rw [if_neg h, getD_append_of_not_found m _ k d (by simpa using h)]
    simp [getD]

theorem getD_append_single_ne {α : Type} (m : List (String × α))
    (k k' : String) (v : α) (d : α) (h : k' ≠ k) :
    getD (m ++ [(k, v)]) k' d = getD m k' d := by
  induction m with
  | nil =>
    show (if k = k' then v else d) = d
    exact if_neg fun hkk => h hkk.symm
  | cons p t ih =>
    rw [List.cons_append]
    show (if p.1 = k' then p.2 else getD (t ++ [(k, v)]) k' d)
      = (if p.1 = k' then p.2 else getD t k' d)
    rw [ih]

theorem getD_setKey_ne {α : Type} (m : List (String × α)) (k k' : String)
    (v : α) (d : α) (h : k' ≠ k) : getD (setKey m k v) k' d = getD m k' d := by
  unfold setKey
  split
  · exact getD_map_set_ne m k k' v d h
  · exact getD_append_single_ne m k k' v d h

theorem setKey_of_not_found {α : Type} (m : List (String × α)) (k : String)
    (v : α) (h : hasKey m k = false) : setKey m k v = m ++ [(k, v)] := by
  unfold setKey
  rw [if_neg (by simp [h])]

theorem getD_map_keys {α β : Type} (f : String × α → β) (d : β) :
    ∀ (m : List (String × α)) (p : String × α), (keysOf m).Nodup → p ∈ m →
      getD (m.map (fun q => (q.1, f q))) p.1 d = f p := by
  intro m
  induction m with
  | nil => intro p _ hp; simp at hp
  | cons q t ih =>
    intro p hnd hp
    simp only [keysOf, List.map_cons, List.nodup_cons] at hnd
    rcases List.mem_cons.mp hp with rfl | hpt
    · simp [getD]
    · have hne : q.1 ≠ p.1 := by
        intro hq
        exact hnd.1 (hq ▸ List.mem_map_of_mem Prod.fst hpt)
      simp only [List.map_cons, getD, if_neg hne]
      exact ih p hnd.2 hpt

/-! ### Classifier lemmas -/

theorem detect_ingredient_some {keys hints : List String} {f : String}
    (h : detect_ingredient keys hints = some f) :
    f ∈ keys ∧ matchesAny f hints = true := by
  induction keys with
  | nil => simp [detect_ingredient] at h
  | cons k ks ih =>
    by_cases hk : matchesAny k hints = true
    · simp only [detect_ingredient, if_pos hk, Option.some.injEq] at h
      subst h
      exact ⟨List.mem_cons_self _ _, hk⟩
    · simp only [detect_ingredient, if_neg hk] at h
      rcases ih h with ⟨hmem, hm⟩
      exact ⟨List.mem_cons_of_mem _ hmem, hm⟩

theorem detect_ingredient_of_first (hints : List String) (l1 : List String)
    (k : String) (l2 : List String) (hk : matchesAny k hints = true)
    (hl : ∀ k' ∈ l1, matchesAny k' hints = false) :
    detect_ingredient (l1 ++ k :: l2) hints = some k := by
  induction l1 with
  | nil => simp [detect_ingredient, hk]
  | cons a t ih =>
    have ha : matchesAny a hints = false := hl a (List.mem_cons_self _ _)
    rw [List.cons_append]
    show (if matchesAny a hints = true then some a
      else detect_ingredient (t ++ k :: l2) hints) = some k
    rw [if_neg (by simp [ha])]
    exact ih (fun k' hk' => hl k' (List.mem_cons_of_mem _ hk'))

theorem detect_ingredient_of_none (keys hints : List String)
    (h : ∀ k ∈ keys, matchesAny k hints = false) :
    detect_ingredient keys hints = none := by
  induction keys with
  | nil => rfl
  | cons k ks ih =>
    have hk : matchesAny k hints = false := h k (List.mem_cons_self _ _)
    show (if matchesAny k hints = true then some k
      else detect_ingredient ks hints) = none
    rw [if_neg (by simp [hk])]
    exact ih fun k' hk' => h k' (List.mem_cons_of_mem _ hk')

theorem flour_match_ne_sdd {f : String} (h : matchesAny f FLOUR_HINTS = true) :
    f ≠ "sdd" := by
  intro hf
  subst hf
  exact absurd h (by decide)

theorem liquid_match_ne_sdd {f : String}
    (h : matchesAny f LIQUID_HINTS = true) : f ≠ "sdd" := by
  intro hf
  subst hf
  exact absurd h (by decide)

/-! ### Substring characterization -/

theorem isPrefixL_iff (n : List Char) :
    ∀ h : List Char, (isPrefixL n h = true ↔ ∃ r, h = n ++ r) := by
  induction n with
  | nil => intro h; simp [isPrefixL]
  | cons a as ih =>
    intro h
    cases h with
    | nil =>
      constructor
      · intro hc; exact absurd hc (by simp [isPrefixL])
      · rintro ⟨r, hr⟩; exact absurd hr.symm (List.cons_ne_nil a (as ++ r))
    | cons b bs =>
      simp only [isPrefixL, Bool.and_eq_true, decide_eq_true_eq, ih bs]
      constructor
      · rintro ⟨rfl, r, rfl⟩
        exact ⟨r, rfl⟩
      · rintro ⟨r, hr⟩
        simp only [List.cons_append, List.cons.injEq] at hr
        exact ⟨hr.1.symm, r, hr.2⟩

theorem containsSub_iff (n : List Char) :
    ∀ h : List Char, (containsSub n h = true ↔ ∃ l r, h = l ++ n ++ r) := by
  intro h
  induction h with
  | nil =>
    simp only [containsSub, isPrefixL_iff]
    constructor
    · rintro ⟨r, hr⟩
      exact ⟨[], r, by simpa using hr⟩
    · rintro ⟨l, r, hr⟩
      have h1 := List.append_eq_nil.mp hr.symm
      have h2 := List.append_eq_nil.mp h1.1
      exact ⟨[], by rw [h2.2]; rfl⟩
  | cons c t ih =>
    simp only [containsSub, Bool.or_eq_true, isPrefixL_iff, ih]
    constructor
    · rintro (⟨r, hr⟩ | ⟨l, r, hr⟩)
      · exact ⟨[], r, by simpa using hr⟩
      · exact ⟨c :: l, r, by simp [hr]⟩
    · rintro ⟨l, r, hr⟩
      cases l with
      | nil => exact Or.inl ⟨r, by simpa using hr⟩
      | cons c' l' =>
        simp only [List.cons_append, List.cons.injEq] at hr
        exact Or.inr ⟨l', r, hr.2⟩

theorem matchesAny_iff (k : String) (hints : List String) :
    matchesAny k hints = true
      ↔ ∃ h ∈ hints, ∃ l r, lowerStr k = l ++ h.data ++ r := by
  simp only [matchesAny, List.any_eq_true, containsSub_iff]

/-! ### Minimum-fold lemmas (for the maximize-mode `min`) -/

theorem foldl_min_le (qs : List ℚ) :
    ∀ (q x : ℚ), x ∈ q :: qs → qs.foldl min q ≤ x := by
  induction qs with
  | nil =>
    intro q x hx
    rw [List.mem_singleton] at hx
    subst hx
    exact le_refl _
  | cons a t ih =>
    intro q x hx
    have hq : t.foldl min (min q a) ≤ min q a :=
      ih (min q a) (min q a) (List.mem_cons_self _ _)
    rcases List.mem_cons.mp hx with rfl | hx'
    · exact le_trans hq (min_le_left _ _)
    · rcases List.mem_cons.mp hx' with rfl | hx''
      · exact le_trans hq (min_le_right _ _)
      · exact ih (min q a) x (List.mem_cons_of_mem _ hx'')

theorem foldl_min_mem (qs : List ℚ) : ∀ q : ℚ, qs.foldl min q ∈ q :: qs := by
  induction qs with
  | nil => intro q; exact List.mem_singleton.mpr rfl
  | cons a t ih =>
    intro q
    rcases List.mem_cons.mp (ih (min q a)) with heq | hmem
    · rcases min_choice q a with hqa | hqa
      · exact List.mem_cons.mpr (Or.inl (heq.trans hqa))
      · exact List.mem_cons.mpr
          (Or.inr (List.mem_cons.mpr (Or.inl (heq.trans hqa))))
    · exact List.mem_cons.mpr (Or.inr (List.mem_cons.mpr (Or.inr hmem)))

/-! ### Maximize-mode lemmas -/

theorem servingBounds_of_pos (ratios : List (String × ℚ))
    (avail : String → ℚ) (h : ∀ p ∈ ratios, p.2 ≠ 0) :
    servingBounds ratios avail
      = .ok (ratios.map (fun p => avail p.1 / p.2)) := by
  induction ratios with
  | nil => rfl
  | cons p t ih =>
    obtain ⟨k, r⟩ := p
    have hr : r ≠ 0 := h (k, r) (List.mem_cons_self _ _)
    show (if r = 0 then Except.error () else
      match servingBounds t avail with
      | .error e => .error e
      | .ok qs => .ok (avail k / r :: qs)) = _
    rw [if_neg hr, ih (fun p hp => h p (List.mem_cons_of_mem _ hp))]
    rfl

theorem getD_targetAmounts (ratios : List (String × ℚ)) (S : ℚ)
    (hnd : (keysOf ratios).Nodup) (p : String × ℚ) (hp : p ∈ ratios) :
    getD (targetAmounts ratios S) p.1 0 = p.2 * S := by
  simp only [targetAmounts]
  exact getD_map_keys (fun q => q.2 * S) 0 ratios p hnd hp

theorem getD_makeRatios (totals : List (String × ℚ)) (S : ℚ)
    (hnd : (keysOf totals).Nodup) (p : String × ℚ) (hp : p ∈ totals) :
    getD (makeRatios totals S) p.1 0 = p.2 / S := by
  simp only [makeRatios]
  exact getD_map_keys (fun q => q.2 / S) 0 totals p hnd hp

theorem servingBounds_of_zero {k : String} :
    ∀ (ratios : List (String × ℚ)) (avail : String → ℚ),
      (k, (0 : ℚ)) ∈ ratios → servingBounds ratios avail = .error () := by
  intro ratios
  induction ratios with
  | nil => intro avail h; simp at h
  | cons p t ih =>
    intro avail hmem
    obtain ⟨k', r⟩ := p
    by_cases hr : r = 0
    · subst hr
      show (if (0 : ℚ) = 0 then Except.error () else _) = _
      rw [if_pos rfl]
    · show (if r = 0 then Except.error () else
        match servingBounds t avail with
        | .error e => .error e
        | .ok qs => .ok (avail k' / r :: qs)) = .error ()
      rw [if_neg hr]
      have ht : (k, (0 : ℚ)) ∈ t := by
        rcases List.mem_cons.mp hmem with heq | h
        · exact absurd (congrArg Prod.snd heq).symm hr
        · exact h
      rw [ih avail ht]

/-- Claim C1: the spec requires a division-by-zero guard in maximize mode (a
zero per-serving ratio must never raise a division fault and must not
constrain the serving count), but the source (line 171) divides
`available[k] / ratios[k]` unguarded, so Python raises `ZeroDivisionError`
whenever any ratio is zero.  This theorem shows the embedded computation
faults (`Except.error`) for *every* availability mapping as soon as a
zero-ratio ingredient is present, and in particular on the concrete failing
input `ratios = {flour: 200, sugar: 0}`, `available = {flour: 1000,
sugar: 5}`. -/
theorem maximize_zero_ratio_divzero :
    (∀ (ratios : List (String × ℚ)) (avail : String → ℚ) (k : String),
      (k, (0 : ℚ)) ∈ ratios → maximizeServings ratios avail = .error ())
    ∧ maximizeServings [("flour", 200), ("sugar", 0)]
        (fun k => if k = "flour" then 1000 else 5) = .error () := by
  constructor
  · intro ratios avail k hmem
    unfold maximizeServings
    rw [servingBounds_of_zero ratios avail hmem]
  · simp +decide [maximizeServings, servingBounds]

/-- Witness for `maximize_zero_ratio_divzero`: a one-ingredient recipe whose
ratio is zero makes maximize mode fault. -/
theorem maximize_zero_ratio_divzero_witness :
    maximizeServings [("butter", (0 : ℚ))] (fun _ => 7) = .error () :=
  maximize_zero_ratio_divzero.1 _ _ "butter" (List.mem_singleton.mpr rfl)

/-- Claim C4: in maximize mode with all ratios strictly positive, the
computed serving count `S` is the minimum of `avail[i] / ratio[i]` (it is a
lower bound of all the per-ingredient quotients and is attained by one of
them), every ingredient's absolute amount is `ratio[i] * S`, and the worked
example (ratios `{flour: 200, water: 125}`, available `{flour: 1000,
water: 400}`) yields servings `16/5 = 3.2` and amounts
`{flour: 640, water: 400}`. -/
theorem maximize_positive_ratios_spec :
    (∀ (ratios : List (String × ℚ)) (avail : String → ℚ),
      ratios ≠ [] → (∀ p ∈ ratios, 0 < p.2) → (keysOf ratios).Nodup →
      ∃ S : ℚ, maximizeServings ratios avail = .ok S
        ∧ (∀ p ∈ ratios, S ≤ avail p.1 / p.2)
        ∧ (∃ p ∈ ratios, S = avail p.1 / p.2)
        ∧ ∀ p ∈ ratios, getD (targetAmounts ratios S) p.1 0 = p.2 * S)
    ∧ maximizeServings [("flour", 200), ("water", 125)]
        (fun k => if k = "flour" then 1000 else 400) = .ok (16 / 5)
    ∧ targetAmounts [("flour", 200), ("water", 125)] (16 / 5)
        = [("flour", 640), ("water", 400)] := by
  refine ⟨?_, ?_, ?_⟩
  · intro ratios avail hne hpos hnd
    have hz : ∀ p ∈ ratios, p.2 ≠ 0 := fun p hp => (hpos p hp).ne'
    have hsb := servingBounds_of_pos ratios avail hz
    obtain ⟨p0, rest, rfl⟩ : ∃ p0 rest, ratios = p0 :: rest := by
      cases ratios with
      | nil => exact absurd rfl hne
      | cons p0 rest => exact ⟨p0, rest, rfl⟩
    refine ⟨(rest.map (fun p => avail p.1 / p.2)).foldl min
      (avail p0.1 / p0.2), ?_, ?_, ?_, ?_⟩
    · unfold maximizeServings
      rw [hsb]
      simp only [List.map_cons]
    · intro p hp
      refine foldl_min_le _ _ _ ?_
      rcases List.mem_cons.mp hp with rfl | hp'
      · exact List.mem_cons_self _ _
      · exact List.mem_cons_of_mem _ (List.mem_map_of_mem _ hp')
    · rcases List.mem_cons.mp
        (foldl_min_mem (rest.map fun p => avail p.1 / p.2)
          (avail p0.1 / p0.2)) with heq | hmem'
      · exact ⟨p0, List.mem_cons_self _ _, heq⟩
      · rcases List.mem_map.mp hmem' with ⟨p, hp, hpe⟩
        exact ⟨p, List.mem_cons_of_mem _ hp, hpe.symm⟩
    · intro p hp
      exact getD_targetAmounts _ _ hnd p hp
  · simp +decide [maximizeServings, servingBounds]
    norm_num [min_def]
  · simp [targetAmounts]
    norm_num

/-- Witness for `maximize_positive_ratios_spec`: a concrete two-ingredient
instance of the general statement. -/
theorem maximize_positive_ratios_spec_witness :
    ∃ S : ℚ,
      maximizeServings [("flour", 2), ("milk", 5)]
          (fun k => if k = "flour" then 10 else 10) = .ok S
        ∧ (∀ p ∈ [("flour", (2 : ℚ)), ("milk", 5)],
            S ≤ (if p.1 = "flour" then (10 : ℚ) else 10) / p.2)
        ∧ (∃ p ∈ [("flour", (2 : ℚ)), ("milk", 5)],
            S = (if p.1 = "flour" then (10 : ℚ) else 10) / p.2)
        ∧ ∀ p ∈ [("flour", (2 : ℚ)), ("milk", 5)],
            getD (targetAmounts [("flour", 2), ("milk", 5)] S) p.1 0
              = p.2 * S :=
  maximize_positive_ratios_spec.1 [("flour", 2), ("milk", 5)] _
    (by decide) (by norm_num) (by decide)

/-- Claim C6: storing per-serving ratios `t_i / S` at creation time and then
scaling back to the same serving count `S` reproduces the original totals
exactly (the embedding is over `ℚ`, so "within floating-point tolerance"
sharpens to exact equality). -/
theorem create_scale_roundtrip (totals : List (String × ℚ)) (S : ℚ)
    (hS : 0 < S) : targetAmounts (makeRatios totals S) S = totals := by
  induction totals with
  | nil => rfl
  | cons p t ih =>
    simp only [makeRatios, targetAmounts, List.map_cons] at ih ⊢
    simp only [List.cons.injEq]
    exact ⟨by simp [div_mul_cancel₀ _ hS.ne'], ih⟩

/-- Witness for `create_scale_roundtrip` at the spec's own example recipe. -/
theorem create_scale_roundtrip_witness :
    targetAmounts (makeRatios [("flour", 800), ("water", 500)] 4) 4
      = [("flour", 800), ("water", 500)] :=
  create_scale_roundtrip _ 4 (by norm_num)

/-! ### Hydration lemmas -/

theorem isLiquidKey_sdd : isLiquidKey "sdd" = false := by decide

theorem filter_map_sdd (d : ℚ) : ∀ m : List (String × ℚ),
    (m.map (fun p => if p.1 = "sdd" then ("sdd", d) else p)).filter
        (fun p => isLiquidKey p.1)
      = m.filter (fun p => isLiquidKey p.1) := by
  intro m
  induction m with
  | nil => rfl
  | cons p t ih =>
    by_cases hp : p.1 = "sdd"
    · have h1 : isLiquidKey p.1 = false := by rw [hp]; exact isLiquidKey_sdd
      simp only [List.map_cons, if_pos hp, List.filter_cons, h1,
        isLiquidKey_sdd, Bool.false_eq_true, if_false, ih]
    · simp only [List.map_cons, if_neg hp, List.filter_cons, ih]

theorem liquidTotal_setKey_sdd (amounts : List (String × ℚ)) (d : ℚ) :
    liquidTotal (setKey amounts "sdd" d) = liquidTotal amounts := by
  unfold liquidTotal setKey
  split
  · rw [filter_map_sdd]
  · rw [List.filter_append]
    simp [List.filter_cons, isLiquidKey_sdd]

/-- Claim C5: the hydration calculation produces a value iff a flour
ingredient was identified and its amount is strictly positive; the value is
`100 * (sum of liquid-classified amounts) / flour_amount`; the synthetic
`"sdd"` key matches no liquid hint, so writing it (as `apply_sdd` does)
never changes the liquid sum; with no flour the result is always `none`. -/
theorem hydration_spec :
    (∀ (amounts : List (String × ℚ)) (flour : Option String),
      (hydration amounts flour).isSome = true
        ↔ ∃ f, flour = some f ∧ 0 < getD amounts f 0)
    ∧ (∀ (amounts : List (String × ℚ)) (f : String),
        0 < getD amounts f 0 →
        hydration amounts (some f)
          = some (100 * liquidTotal amounts / getD amounts f 0))
    ∧ isLiquidKey "sdd" = false
    ∧ (∀ (amounts : List (String × ℚ)) (d : ℚ),
        liquidTotal (setKey amounts "sdd" d) = liquidTotal amounts)
    ∧ (∀ amounts : List (String × ℚ), hydration amounts none = none) := by
  refine ⟨?_, ?_, isLiquidKey_sdd, liquidTotal_setKey_sdd, fun _ => rfl⟩
  · intro amounts flour
    cases flour with
    | none => simp [hydration]
    | some f =>
      by_cases hf : 0 < getD amounts f 0
      · constructor
        · intro _
          exact ⟨f, rfl, hf⟩
        · intro _
          simp [hydration, hf]
      · constructor
        · intro hs
          rw [show hydration amounts (some f) = none by
            simp [hydration, hf]] at hs
          simp at hs
        · rintro ⟨f', hf', hpos⟩
          rw [Option.some.injEq] at hf'
          subst hf'
          exact absurd hpos hf
  · intro amounts f h
    simp [hydration, h]

/-- Witness for `hydration_spec`: the value clause evaluated on the spec's
target-servings example. -/
theorem hydration_spec_witness :
    hydration [("flour", 400), ("water", 250)] (some "flour")
      = some (100 * liquidTotal [("flour", 400), ("water", 250)]
          / getD [("flour", (400 : ℚ)), ("water", 250)] "flour" 0) :=
  hydration_spec.2.1 _ "flour" (by simp +decide [getD])

/-- Claim C2 counterexample: on `amounts = {"flour milk": 10}`, `D = 10`,
the classifier identifies the single ingredient "flour milk" as both the
flour and the liquid ingredient (so `F = L = 10`), and the final amount is
`0`, not the claimed `flour' = max(0, F - 0.5*D) = 5`: both reductions are
applied in sequence to the same entry. -/
theorem apply_sdd_shared_role_cex :
    detect_ingredient (keysOf [("flour milk", (10 : ℚ))]) FLOUR_HINTS
        = some "flour milk"
      ∧ detect_ingredient (keysOf [("flour milk", (10 : ℚ))]) LIQUID_HINTS
        = some "flour milk"
      ∧ ¬ getD (apply_sdd [("flour milk", (10 : ℚ))] 10).amounts
            "flour milk" 0
          = max 0 (10 - 1 / 2 * 10) := by
  refine ⟨by decide, by decide, ?_⟩
  have h1 : getD (apply_sdd [("flour milk", (10 : ℚ))] 10).amounts
      "flour milk" 0 = 0 := by
    simp +decide [apply_sdd, keysOf, detect_ingredient, matchesAny, setKey,
      hasKey, getD, max_def]
    norm_num
  rw [h1]
  norm_num [max_def]

/-- Claim C2 (amended): for every `D ≥ 0` and every amounts mapping in which
the classifier identifies a flour ingredient `f` and a *distinct* liquid
ingredient `l`, applying the SDD substitution yields
`flour' = max(0, F - 0.5*D)`, `liquid' = max(0, L - 0.5*D)`, and sets key
`"sdd"` to `D` (also when `D = 0`).  The distinctness hypothesis is forced
by the counterexample `apply_sdd_shared_role_cex`: when one ingredient plays
both roles the two reductions stack (see `apply_sdd_overlap_spec`). -/
theorem apply_sdd_distinct_amounts (amounts : List (String × ℚ)) (sdd : ℚ)
    (f l : String) (_hsdd : 0 ≤ sdd)
    (hF : detect_ingredient (keysOf amounts) FLOUR_HINTS = some f)
    (hL : detect_ingredient (keysOf amounts) LIQUID_HINTS = some l)
    (hfl : f ≠ l) :
    getD (apply_sdd amounts sdd).amounts f 0
        = max 0 (getD amounts f 0 - 1 / 2 * sdd)
      ∧ getD (apply_sdd amounts sdd).amounts l 0
        = max 0 (getD amounts l 0 - 1 / 2 * sdd)
      ∧ getD (apply_sdd amounts sdd).amounts "sdd" 0 = sdd := by
  have hfs : f ≠ "sdd" := flour_match_ne_sdd (detect_ingredient_some hF).2
  have hls : l ≠ "sdd" := liquid_match_ne_sdd (detect_ingredient_some hL).2
  simp only [apply_sdd, hF, hL]
  refine ⟨?_, ?_, ?_⟩
  · rw [getD_setKey_ne _ _ _ _ _ hfs, getD_setKey_ne _ _ _ _ _ hfl,
      getD_setKey_self]
  · rw [getD_setKey_ne _ _ _ _ _ hls, getD_setKey_self,
      getD_setKey_ne _ _ _ _ _ hfl.symm]
  · rw [getD_setKey_self]

/-- Witness for `apply_sdd_distinct_amounts` on the spec's example
(`flour = 400`, `water = 250`, `D = 100`). -/
theorem apply_sdd_distinct_amounts_witness :
    getD (apply_sdd [("flour", (400 : ℚ)), ("water", 250)] 100).amounts
        "flour" 0
      = max 0 (getD [("flour", (400 : ℚ)), ("water", 250)] "flour" 0
          - 1 / 2 * 100)
    ∧ getD (apply_sdd [("flour", (400 : ℚ)), ("water", 250)] 100).amounts
        "water" 0
      = max 0 (getD [("flour", (400 : ℚ)), ("water", 250)] "water" 0
          - 1 / 2 * 100)
    ∧ getD (apply_sdd [("flour", (400 : ℚ)), ("water", 250)] 100).amounts
        "sdd" 0 = 100 :=
  apply_sdd_distinct_amounts _ 100 "flour" "water" (by norm_num) (by decide)
    (by decide) (by decide)

/-- Claim C3 counterexample: on `amounts = {"flour milk": 10}`, `D = 12`,
the classifier resolves both roles to the same ingredient with
`F = L = 10`; `0.5*D = 6` exceeds neither `F` nor `L`, so the claim predicts
no warnings, yet the code emits a liquid-exceeded warning (the liquid check
runs against the already-flour-reduced amount `4`). -/
theorem apply_sdd_shared_role_warning_cex :
    (apply_sdd [("flour milk", (10 : ℚ))] 12).warnings
        = ["SDD exceeds liquid; liquid reduced to 0"]
      ∧ ¬ ((1 / 2 : ℚ) * 12
          > getD [("flour milk", (10 : ℚ))] "flour milk" 0) := by
  constructor
  · simp +decide [apply_sdd, keysOf, detect_ingredient, matchesAny, setKey,
      hasKey, getD, max_def]
    norm_num
  · simp +decide [getD]
    norm_num

/-- Claim C3 (amended): when the classifier finds a flour ingredient `f` and
a *distinct* liquid ingredient `l`, the warnings list is exactly the
flour-exceeded warning iff `0.5*D > F` followed by the liquid-exceeded
warning iff `0.5*D > L` (so its length is the number of exceeded
constraints, in flour-then-liquid order); if either role is missing the
corresponding reduction is skipped silently, and with both missing no
warning is produced.  The distinctness hypothesis is forced by
`apply_sdd_shared_role_warning_cex`: with a shared ingredient the liquid
check compares against the already-reduced amount. -/
theorem apply_sdd_warnings_spec :
    (∀ (amounts : List (String × ℚ)) (sdd : ℚ) (f l : String),
      detect_ingredient (keysOf amounts) FLOUR_HINTS = some f →
      detect_ingredient (keysOf amounts) LIQUID_HINTS = some l →
      f ≠ l →
      (apply_sdd amounts sdd).warnings
        = (if 1 / 2 * sdd > getD amounts f 0
            then ["SDD exceeds flour; flour reduced to 0"] else [])
          ++ (if 1 / 2 * sdd > getD amounts l 0
            then ["SDD exceeds liquid; liquid reduced to 0"] else []))
    ∧ (∀ (amounts : List (String × ℚ)) (sdd : ℚ) (l : String),
      detect_ingredient (keysOf amounts) FLOUR_HINTS = none →
      detect_ingredient (keysOf amounts) LIQUID_HINTS = some l →
      (apply_sdd amounts sdd).warnings
        = (if 1 / 2 * sdd > getD amounts l 0
            then ["SDD exceeds liquid; liquid reduced to 0"] else []))
    ∧ (∀ (amounts : List (String × ℚ)) (sdd : ℚ) (f : String),
      detect_ingredient (keysOf amounts) FLOUR_HINTS = some f →
      detect_ingredient (keysOf amounts) LIQUID_HINTS = none →
      (apply_sdd amounts sdd).warnings
        = (if 1 / 2 * sdd > getD amounts f 0
            then ["SDD exceeds flour; flour reduced to 0"] else []))
    ∧ (∀ (amounts : List (String × ℚ)) (sdd : ℚ),
      detect_ingredient (keysOf amounts) FLOUR_HINTS = none →
      detect_ingredient (keysOf amounts) LIQUID_HINTS = none →
      (apply_sdd amounts sdd).warnings = []) := by
  refine ⟨?_, ?_, ?_, ?_⟩
  · intro amounts sdd f l hF hL hfl
    simp only [apply_sdd, hF, hL]
    rw [getD_setKey_ne _ _ _ _ _ hfl.symm]
  · intro amounts sdd l hF hL
    simp only [apply_sdd, hF, hL, List.nil_append]
  · intro amounts sdd f hF hL
    simp only [apply_sdd, hF, hL, List.append_nil]
  · intro amounts sdd hF hL
    simp only [apply_sdd, hF, hL, List.append_nil]

/-- Witness for `apply_sdd_warnings_spec`: `D = 1000` exceeds both the flour
(`400`) and the liquid (`250`) of the spec's example, producing both
warnings in order. -/
theorem apply_sdd_warnings_spec_witness :
    (apply_sdd [("flour", (400 : ℚ)), ("water", 250)] 1000).warnings
      = (if 1 / 2 * (1000 : ℚ)
            > getD [("flour", (400 : ℚ)), ("water", 250)] "flour" 0
          then ["SDD exceeds flour; flour reduced to 0"] else [])
        ++ (if 1 / 2 * (1000 : ℚ)
            > getD [("flour", (400 : ℚ)), ("water", 250)] "water" 0
          then ["SDD exceeds liquid; liquid reduced to 0"] else []) :=
  apply_sdd_warnings_spec.1 _ 1000 "flour" "water" (by decide) (by decide)
    (by decide)

/-- Claim C10: when one and the same ingredient name is selected both as the
flour and as the liquid ingredient, the `0.5*D` reduction is applied to it
twice in sequence, each step clamped at zero, and the liquid-exceeded
warning is decided against the already-flour-reduced amount rather than the
original amount. -/
theorem apply_sdd_overlap_spec (amounts : List (String × ℚ)) (sdd : ℚ)
    (f : String)
    (hF : detect_ingredient (keysOf amounts) FLOUR_HINTS = some f)
    (hL : detect_ingredient (keysOf amounts) LIQUID_HINTS = some f) :
    getD (apply_sdd amounts sdd).amounts f 0
        = max 0 (max 0 (getD amounts f 0 - 1 / 2 * sdd) - 1 / 2 * sdd)
      ∧ (apply_sdd amounts sdd).warnings
        = (if 1 / 2 * sdd > getD amounts f 0
            then ["SDD exceeds flour; flour reduced to 0"] else [])
          ++ (if 1 / 2 * sdd > max 0 (getD amounts f 0 - 1 / 2 * sdd)
            then ["SDD exceeds liquid; liquid reduced to 0"] else []) := by
  have hfs : f ≠ "sdd" := flour_match_ne_sdd (detect_ingredient_some hF).2
  simp only [apply_sdd, hF, hL]
  constructor
  · rw [getD_setKey_ne _ _ _ _ _ hfs, getD_setKey_self, getD_setKey_self]
  · rw [getD_setKey_self]

/-- Witness for `apply_sdd_overlap_spec` on `{"flour milk": 30}`, `D = 20`:
the single ingredient is reduced from `30` to `10` in two clamped steps. -/
theorem apply_sdd_overlap_spec_witness :
    getD (apply_sdd [("flour milk", (30 : ℚ))] 20).amounts "flour milk" 0
        = max 0 (max 0 (getD [("flour milk", (30 : ℚ))] "flour milk" 0
            - 1 / 2 * 20) - 1 / 2 * 20)
      ∧ (apply_sdd [("flour milk", (30 : ℚ))] 20).warnings
        = (if 1 / 2 * (20 : ℚ)
              > getD [("flour milk", (30 : ℚ))] "flour milk" 0
            then ["SDD exceeds flour; flour reduced to 0"] else [])
          ++ (if 1 / 2 * (20 : ℚ)
              > max 0 (getD [("flour milk", (30 : ℚ))] "flour milk" 0
                  - 1 / 2 * 20)
            then ["SDD exceeds liquid; liquid reduced to 0"] else []) :=
  apply_sdd_overlap_spec _ 20 "flour milk" (by decide) (by decide)

/-- Claim C7: the full end-to-end example.  A recipe created with servings 4
and ingredients `{flour: 800, water: 500}` stores ratios
`{flour: 200, water: 125}`; scaling to target servings 2 yields
`{flour: 400, water: 250}` with hydration `62.5% = 125/2`; applying
`SDD = 100` yields `flour = 350, water = 200, sdd = 100` with no warnings
and hydration `400/7 ≈ 57.1%`. -/
theorem end_to_end_example :
    makeRatios [("flour", 800), ("water", 500)] 4
        = [("flour", 200), ("water", 125)]
      ∧ targetAmounts [("flour", 200), ("water", 125)] 2
        = [("flour", 400), ("water", 250)]
      ∧ detect_ingredient (keysOf [("flour", (400 : ℚ)), ("water", 250)])
          FLOUR_HINTS = some "flour"
      ∧ hydration [("flour", 400), ("water", 250)] (some "flour")
        = some (125 / 2)
      ∧ (apply_sdd [("flour", 400), ("water", 250)] 100).amounts
        = [("flour", 350), ("water", 200), ("sdd", 100)]
      ∧ (apply_sdd [("flour", 400), ("water", 250)] 100).flour
        = some "flour"
      ∧ (apply_sdd [("flour", 400), ("water", 250)] 100).warnings = []
      ∧ hydration [("flour", 350), ("water", 200), ("sdd", 100)]
          (some "flour")
        = some (400 / 7) := by
  refine ⟨?_, ?_, by decide, ?_, ?_, ?_, ?_, ?_⟩
  · simp [makeRatios]
    norm_num
  · simp [targetAmounts]
    norm_num
  · simp +decide [hydration, getD, liquidTotal, isLiquidKey]
    norm_num
  · simp +decide [apply_sdd, keysOf, detect_ingredient, matchesAny, setKey,
      hasKey, getD, max_def]
    norm_num
  · simp +decide [apply_sdd, keysOf, detect_ingredient, matchesAny]
  · simp +decide [apply_sdd, keysOf, detect_ingredient, matchesAny, setKey,
      hasKey, getD, max_def]
    norm_num
  · simp +decide [hydration, getD, liquidTotal, isLiquidKey]
    norm_num

/-- Claim C8: the classifier returns the first name (in the given order)
whose lowercased form contains some hint string as a contiguous substring
(the boolean test is characterized against the substring decomposition
`lowerStr k = l ++ hint ++ r`), returns `none` when no name matches, and on
the spec's examples classifies "Whole Wheat Flour" as flour and "WATER" as
liquid (case-insensitive, substring-based). -/
theorem classify_spec :
    (∀ (k : String) (hints : List String),
      matchesAny k hints = true
        ↔ ∃ h ∈ hints, ∃ l r, lowerStr k = l ++ h.data ++ r)
    ∧ (∀ (hints l1 : List String) (k : String) (l2 : List String),
      matchesAny k hints = true →
      (∀ k' ∈ l1, matchesAny k' hints = false) →
      detect_ingredient (l1 ++ k :: l2) hints = some k)
    ∧ (∀ keys hints : List String,
      (∀ k ∈ keys, matchesAny k hints = false) →
      detect_ingredient keys hints = none)
    ∧ detect_ingredient ["Whole Wheat Flour"] FLOUR_HINTS
        = some "Whole Wheat Flour"
    ∧ detect_ingredient ["WATER"] LIQUID_HINTS = some "WATER" :=
  ⟨matchesAny_iff, detect_ingredient_of_first, detect_ingredient_of_none,
    by decide, by decide⟩

/-- Witness for `classify_spec`: the first-match clause on a list with a
non-matching head, and the none clause on a list with no match. -/
theorem classify_spec_witness :
    detect_ingredient (["sugar"] ++ "Rye Flour" :: ["salt"]) FLOUR_HINTS
        = some "Rye Flour"
      ∧ detect_ingredient ["sugar", "salt"] LIQUID_HINTS = none :=
  ⟨classify_spec.2.1 FLOUR_HINTS ["sugar"] "Rye Flour" ["salt"] (by decide)
      (by decide),
    classify_spec.2.2.1 ["sugar", "salt"] LIQUID_HINTS (by decide)⟩

/-- Claim C9: recipe creation rejects an empty or already-present name with
no write at all (the model returns `none` exactly when the source prints
"Invalid or duplicate name." and returns before `save_recipes`, leaving the
persisted store as it was); on a valid name each stored per-serving ratio is
`total / servings` and the whole store — the old records plus the new one
appended — is what gets persisted. -/
theorem create_recipe_spec :
    (∀ (recipes : List (String × Recipe)) (name : String) (S : ℚ)
        (totals : List (String × ℚ)),
      name = "" ∨ hasKey recipes name = true →
      create_recipe recipes name S totals = none)
    ∧ (∀ (recipes : List (String × Recipe)) (name : String) (S : ℚ)
        (totals : List (String × ℚ)),
      name ≠ "" → hasKey recipes name = false →
      create_recipe recipes name S totals
        = some (recipes
            ++ [(name,
                { servings := S, ingredients := makeRatios totals S })]))
    ∧ (∀ (totals : List (String × ℚ)) (S : ℚ),
      (keysOf totals).Nodup →
      ∀ p ∈ totals, getD (makeRatios totals S) p.1 0 = p.2 / S) := by
  refine ⟨?_, ?_, ?_⟩
  · intro recipes name S totals h
    unfold create_recipe
    rcases h with h | h <;> simp [h]
  · intro recipes name S totals hname hkey
    unfold create_recipe
    rw [if_neg (by simp [hname, hkey]), setKey_of_not_found _ _ _ hkey]
  · intro totals S hnd p hp
    exact getD_makeRatios totals S hnd p hp

/-- Witness for `create_recipe_spec`: rejection of a duplicate name with the
store unchanged, a successful creation, and the stored ratio `800 / 4`. -/
theorem create_recipe_spec_witness :
    create_recipe [("bread", ⟨4, [("flour", 200)]⟩)] "bread" 2 []
        = none
      ∧ create_recipe [] "bread" 4 [("flour", 800)]
        = some [("bread", ⟨4, makeRatios [("flour", 800)] 4⟩)]
      ∧ getD (makeRatios [("flour", (800 : ℚ))] 4) "flour" 0 = 800 / 4 :=
  ⟨create_recipe_spec.1 _ "bread" 2 [] (Or.inr (by decide)),
    create_recipe_spec.2.1 [] "bread" 4 [("flour", 800)] (by decide)
      (by decide),
    create_recipe_spec.2.2 [("flour", (800 : ℚ))] 4 (by decide)
      ("flour", (800 : ℚ)) (by decide)⟩

end RecipeOptimizer
